import Mathlib

/-!
Verification of the remdit-web collaborative-editing core (the YjsPad
client wrapper).  The definitions below are a shallow embedding of the
TypeScript class YjsPad from src/src/App.tsx (the variant that carries
room-existence checking and presence deduplication); the older variant in
src/unnamed/part_003 shares the latch, re-check and setLanguage code paths.
Strings model Y.Text registers, association lists model the JavaScript Map
and object values, and suspension points of the async procedures are made
explicit through environment records describing what arrives while a
callback is awaited.
-/

namespace Remdit

/-! ## Presence tracker (updateUsers, usersEqual)

Embedding of the awareness handling in src/src/App.tsx lines 241-294.
An awareness broadcast state is an optional record (absent models a null
state); its user field is optional, and inside it name and hue are
optional to model missing JavaScript fields.  The cursor field stands for
the ephemeral payload (cursor and selection) that updateUsers ignores. -/

/-- A user currently editing the document, as published to the UI sink. -/
structure UserInfo where
  name : String
  hue : Int
deriving DecidableEq, Repr

/-- The raw user record inside one awareness broadcast state. -/
structure RawUser where
  name : Option String
  hue : Option Int
deriving DecidableEq, Repr

/-- One awareness broadcast state: an optional user record plus the
ephemeral cursor payload, which updateUsers never reads. -/
structure AwState where
  user : Option RawUser
  cursor : Int
deriving DecidableEq, Repr

/-- Normalization applied by updateUsers when reading a raw user:
name defaults to "Anonymous" on a missing or empty (falsy) name, and
hue defaults to 0 on a missing hue. -/
def normUser (r : RawUser) : UserInfo :=
  { name := match r.name with
      | none => "Anonymous"
      | some s => if s = "" then "Anonymous" else s
    hue := r.hue.getD 0 }

/-- The deduplication key built by updateUsers: the string
name ++ "-" ++ hue used as JavaScript Map key. -/
def identityKey (u : UserInfo) : String :=
  u.name ++ "-" ++ toString u.hue

/-- One entry of the usersByIdentity map: key, winning client id, user. -/
abbrev IdentEntry := String × Nat × UserInfo

/-- Lookup in the usersByIdentity map (JavaScript Map.get). -/
def lookupKey (m : List IdentEntry) (k : String) : Option (Nat × UserInfo) :=
  match m.find? (fun e => e.1 = k) with
  | none => none
  | some e => some e.2

/-- JavaScript Map.set: replace the value in place when the key exists,
otherwise append at the end (insertion order is preserved). -/
def setKey (m : List IdentEntry) (k : String) (v : Nat × UserInfo) : List IdentEntry :=
  if m.any (fun e => e.1 = k) then
    m.map (fun e => if e.1 = k then (k, v) else e)
  else m ++ [(k, v)]

/-- One iteration of the states.forEach loop in updateUsers: skip null
states, states without a user, and the local client id; otherwise keep
the entry with the numerically larger client id per identity key. -/
def collectStep (localClientId : Nat) (m : List IdentEntry)
    (e : Nat × Option AwState) : List IdentEntry :=
  match e.2 with
  | none => m
  | some st =>
    match st.user with
    | none => m
    | some r =>
      if e.1 = localClientId then m
      else
        let u := normUser r
        let k := identityKey u
        match lookupKey m k with
        | none => setKey m k (e.1, u)
        | some ex => if ex.1 < e.1 then setKey m k (e.1, u) else m

/-- The usersByIdentity map after the first forEach pass of updateUsers. -/
def usersByIdentity (localClientId : Nat) (states : List (Nat × Option AwState)) :
    List IdentEntry :=
  states.foldl (collectStep localClientId) []

/-- The newUsers record built by updateUsers: the deduplicated entries,
keyed by the winning client id. -/
def updateUsersNew (localClientId : Nat) (states : List (Nat × Option AwState)) :
    List (Nat × UserInfo) :=
  (usersByIdentity localClientId states).map (fun e => e.2)

/-- Lookup in a published users record by client id key. -/
def lookupUser (b : List (Nat × UserInfo)) (k : Nat) : Option UserInfo :=
  match b.find? (fun e => e.1 = k) with
  | none => none
  | some e => some e.2

/-- The usersEqual helper (src/src/App.tsx lines 241-254): same number of
keys, and every key of the first record is present in the second with the
same name and hue. -/
def usersEqual (a b : List (Nat × UserInfo)) : Bool :=
  decide (a.length = b.length) &&
    a.all (fun e =>
      match lookupUser b e.1 with
      | none => false
      | some vb => decide (e.2.name = vb.name) && decide (e.2.hue = vb.hue))

/-- The tail of updateUsers: recompute the deduplicated set, compare with
the previously published set, and republish (second component true) only
on an actual change. -/
def updateUsers (localClientId : Nat) (states : List (Nat × Option AwState))
    (prev : List (Nat × UserInfo)) : List (Nat × UserInfo) × Bool :=
  let newUsers := updateUsersNew localClientId states
  if usersEqual prev newUsers then (prev, false) else (newUsers, true)

/-- The user that updateUsers reads from one awareness entry, none when
the state or its user field is absent (the entry is skipped). -/
def entryUser (e : Nat × Option AwState) : Option UserInfo :=
  match e.2 with
  | none => none
  | some st =>
    match st.user with
    | none => none
    | some r => some (normUser r)

/-- Invariant tying the forEach accumulator of updateUsers to the prefix
of broadcast states already processed: keys are distinct, every entry is
keyed by its own identity, holds a non-local client, originates from a
processed state, dominates every processed client of its identity, and
every processed non-local identity is present. -/
def CollectInv (localClientId : Nat) (processed : List (Nat × Option AwState))
    (m : List IdentEntry) : Prop :=
  (m.map (fun p => p.1)).Nodup ∧
  (∀ p ∈ m, p.1 = identityKey p.2.2 ∧ p.2.1 ≠ localClientId) ∧
  (∀ p ∈ m, ∃ e ∈ processed, entryUser e = some p.2.2 ∧ e.1 = p.2.1) ∧
  (∀ p ∈ m, ∀ e ∈ processed, ∀ u, entryUser e = some u → e.1 ≠ localClientId →
    identityKey u = p.1 → e.1 ≤ p.2.1) ∧
  (∀ e ∈ processed, ∀ u, entryUser e = some u → e.1 ≠ localClientId →
    identityKey u ∈ m.map (fun p => p.1))

/-! ## Session status events (setupEventListeners)

Embedding of the listener wiring in src/src/App.tsx lines 105-147.  The
websocket provider is an external collaborator; it delivers a sequence of
events, and the wrapper maps each one to the status callbacks it invokes.
The wrapper keeps no status state of its own: the handlers consult
nothing and latch nothing. -/

/-- An event delivered by the websocket provider: a status event with
value connected or disconnected, a status event with any other value
(e.g. connecting), or the connection-error signal. -/
inductive ProviderEvent
  | statusConnected
  | statusDisconnected
  | statusOther
  | connectionError
deriving DecidableEq, Repr

/-- A status callback invocation surfaced to the application. -/
inductive Emission
  | connected
  | disconnected
  | desynchronized
deriving DecidableEq, Repr

/-- The status emissions of the listeners registered in
setupEventListeners for one provider event: onConnected on a connected
status, onDisconnected on a disconnected status, onDesynchronized on the
connection-error signal, nothing otherwise. -/
def handleProviderEvent : ProviderEvent → List Emission
  | ProviderEvent.statusConnected => [Emission.connected]
  | ProviderEvent.statusDisconnected => [Emission.disconnected]
  | ProviderEvent.statusOther => []
  | ProviderEvent.connectionError => [Emission.desynchronized]

/-- The status emissions over a whole sequence of provider events. -/
def emitted : List ProviderEvent → List Emission
  | [] => []
  | e :: rest => handleProviderEvent e ++ emitted rest

/-- Decidable check that in an emission sequence no connected or
disconnected emission ever follows a desynchronized emission. -/
def noStatusAfterDesync : List Emission → Bool
  | [] => true
  | Emission.desynchronized :: rest =>
    (rest.all fun e =>
      !(decide (e = Emission.connected)) && !(decide (e = Emission.disconnected))) &&
    noStatusAfterDesync rest
  | _ :: rest => noStatusAfterDesync rest

/-- The terminality property claimed for desynchronized, as a property of
the event sequence the provider delivers. -/
def desyncTerminal (evs : List ProviderEvent) : Prop :=
  noStatusAfterDesync (emitted evs) = true

/-- Decidable check that the provider delivers no further status events
once it has signalled a connection error. -/
def noStatusAfterError : List ProviderEvent → Bool
  | [] => true
  | ProviderEvent.connectionError :: rest =>
    rest.all fun e =>
      !(decide (e = ProviderEvent.statusConnected)) &&
      !(decide (e = ProviderEvent.statusDisconnected))
  | _ :: rest => noStatusAfterError rest

/-! ## Y.Text register primitives

Y.Text insert and delete on the string model. -/

/-- Y.Text insert at a character index. -/
def textInsert (s : String) (i : Nat) (t : String) : String :=
  String.mk (s.data.take i ++ t.data ++ s.data.drop i)

/-- Y.Text delete of len characters starting at a character index. -/
def textDelete (s : String) (i len : Nat) : String :=
  String.mk (s.data.take i ++ s.data.drop (i + len))

/-! ## Reconciliation controller (handleInitialContent, waitForSync)

Embedding of src/src/App.tsx lines 149-238.  The procedure is async; its
suspension points are the awaited room-existence check, the polling wait
and the awaited snapshot fetch.  Remote CRDT updates that land during a
suspension are modelled as a batch of text merged into each register at
that point (an empty string models no arrival; a remote insertion into an
empty register is exactly the arriving text). -/

/-- The record resolved by the onInitialContentNeeded callback. -/
structure FetchData where
  content : String
  language : Option String
deriving DecidableEq, Repr

/-- Remote CRDT text arriving at one suspension point, for each register. -/
structure RemoteBatch where
  text : String
  lang : String
deriving DecidableEq, Repr

/-- The mutable registers and the reconciliation latch of one YjsPad. -/
structure PadState where
  content : String
  language : String
  initialContentHandled : Bool
deriving DecidableEq, Repr

/-- Environment of one handleInitialContent invocation: the outcome of
each awaited external callback (none when the option callback is absent,
an error value when the awaited promise rejects) and the remote traffic
at each suspension point.  waitContentLen gives the content length the
polling wait observes at each elapsed waiting time. -/
structure ReconcileEnv where
  checkRoomExists : Option (Except Unit Bool)
  onInitialContentNeeded : Option (Except Unit FetchData)
  editorLanguage : Option String
  roomCheckRemote : RemoteBatch
  waitRemote : RemoteBatch
  fetchRemote : RemoteBatch
  waitContentLen : Nat → Nat

/-- Outcome of one handleInitialContent invocation: the resulting state,
whether the backend fetch was performed, whether the snapshot was
inserted, the elapsed time of the polling wait when it ran, and the
status callbacks invoked inside the procedure (the body invokes none:
it only logs). -/
structure ReconcileResult where
  state : PadState
  fetched : Bool
  inserted : Bool
  waited : Option Nat
  emissions : List Emission
deriving DecidableEq, Repr

/-- Merge a remote batch into the registers (suspension point). -/
def applyRemote (s : PadState) (b : RemoteBatch) : PadState :=
  { s with content := s.content ++ b.text, language := s.language ++ b.lang }

/-- The check loop of waitForSync: resolve once the content register is
non-empty or waitTime has reached maxWaitTime, otherwise check again
after one 100 ms interval.  Returns the waitTime at resolution. -/
def waitForSyncLoop (cl : Nat → Nat) (maxWaitTime : Nat) (waitTime : Nat) : Nat :=
  if 0 < cl waitTime || maxWaitTime ≤ waitTime then waitTime
  else waitForSyncLoop cl maxWaitTime (waitTime + 100)
termination_by maxWaitTime + 100 - waitTime
decreasing_by
  simp only [Bool.or_eq_true, decide_eq_true_eq, not_or] at *
  omega

/-- waitForSync (src/src/App.tsx lines 169-189): return immediately when
content is already present, otherwise run the check loop from zero. -/
def waitForSync (cl : Nat → Nat) (maxWaitTime : Nat := 2000) : Nat :=
  if 0 < cl 0 then 0 else waitForSyncLoop cl maxWaitTime 0

/-- The body of the try block around the snapshot fetch, after the fetch
promise has settled: propagate a rejection, otherwise insert the snapshot
content only when the content register is still empty (and the snapshot
content is non-empty, JavaScript truthiness), then seed the language
register from the snapshot only when it is still empty. -/
def tryFetchInsert (fr : Except Unit FetchData) (s : PadState) :
    Except Unit (PadState × Bool) :=
  match fr with
  | Except.error e => Except.error e
  | Except.ok data =>
    let step1 :=
      if data.content ≠ "" ∧ s.content.length = 0 then
        ({ s with content := textInsert s.content 0 data.content }, true)
      else (s, false)
    let s2 :=
      match data.language with
      | some lg =>
        if lg ≠ "" ∧ step1.1.language.length = 0 then
          { step1.1 with language := textInsert step1.1.language 0 lg }
        else step1.1
      | none => step1.1
    Except.ok (s2, step1.2)

/-- The final block of handleInitialContent: when the language register is
still empty, fall back to the editor language unless it is absent, empty
or the generic plaintext default. -/
def languageFallback (editorLanguage : Option String) (s : PadState) : PadState :=
  if s.language.length = 0 then
    match editorLanguage with
    | some lg =>
      if lg ≠ "" ∧ lg ≠ "plaintext" then
        { s with language := textInsert s.language 0 lg }
      else s
    | none => s
  else s

/-- handleInitialContent (src/src/App.tsx lines 149-238): return at once
when the latch is already set, otherwise set the latch, resolve the
room-existence predicate (absent or failing predicate counts as false),
then either wait for CRDT sync (room exists) or fetch the backend
snapshot and insert it under the still-empty re-check, catching fetch
errors; finally run the editor-language fallback. -/
def handleInitialContent (env : ReconcileEnv) (s : PadState) : ReconcileResult :=
  if s.initialContentHandled then
    { state := s, fetched := false, inserted := false, waited := none, emissions := [] }
  else
    let s0 := { s with initialContentHandled := true }
    let step :=
      match env.checkRoomExists with
      | none => (false, s0)
      | some r =>
        let s1 := applyRemote s0 env.roomCheckRemote
        match r with
        | Except.ok b => (b, s1)
        | Except.error _ => (false, s1)
    let roomExists := step.1
    let s2 := step.2
    if roomExists then
      let w := waitForSync env.waitContentLen 2000
      let s3 := applyRemote s2 env.waitRemote
      { state := languageFallback env.editorLanguage s3, fetched := false,
        inserted := false, waited := some w, emissions := [] }
    else
      match env.onInitialContentNeeded with
      | some fr =>
        if s2.content.length = 0 then
          let s3 := applyRemote s2 env.fetchRemote
          match tryFetchInsert fr s3 with
          | Except.ok (s4, ins) =>
            { state := languageFallback env.editorLanguage s4, fetched := true,
              inserted := ins, waited := none, emissions := [] }
          | Except.error _ =>
            { state := languageFallback env.editorLanguage s3, fetched := true,
              inserted := false, waited := none, emissions := [] }
        else
          { state := languageFallback env.editorLanguage s2, fetched := false,
            inserted := false, waited := none, emissions := [] }
      | none =>
        { state := languageFallback env.editorLanguage s2, fetched := false,
          inserted := false, waited := none, emissions := [] }

/-- Repeated invocations of handleInitialContent, each with its own
environment, counting performed fetches and insertions. -/
def runInvocations : List ReconcileEnv → PadState → PadState × Nat × Nat
  | [], s => (s, 0, 0)
  | env :: rest, s =>
    let r := handleInitialContent env s
    let t := runInvocations rest r.state
    (t.1, (if r.fetched then 1 else 0) + t.2.1, (if r.inserted then 1 else 0) + t.2.2)

/-- The environment as above with the snapshot fetch resolving to the
given outcome (used to compare a rejected fetch with an empty one). -/
def withFetch (env : ReconcileEnv) (fr : Except Unit FetchData) : ReconcileEnv :=
  { env with onInitialContentNeeded := some fr }

/-! ## setLanguage

Embedding of src/src/App.tsx lines 304-313. -/

/-- The transaction body of setLanguage: delete the whole current value of
the language register, then insert the new value at position zero. -/
def setLanguageTransact (cur lang : String) : String :=
  textInsert (textDelete cur 0 cur.length) 0 lang

/-- setLanguage: when the websocket provider is connected, replace the
language register in one transaction and return true; otherwise change
nothing and return false. -/
def setLanguage (wsconnected : Bool) (s : PadState) (lang : String) :
    PadState × Bool :=
  if wsconnected then
    ({ s with language := setLanguageTransact s.language lang }, true)
  else (s, false)

/-! ## Shared helper lemmas -/

theorem length_eq_zero_iff (s : String) : s.length = 0 ↔ s = "" := by
  constructor
  · intro h
    cases s with
    | mk l =>
      cases l with
      | nil => rfl
      | cons a as => simp [String.length] at h
  · intro h
    rw [h]
    rfl

theorem str_append_empty (s : String) : s ++ "" = s := by
  show String.mk (s.data ++ []) = s
  rw [List.append_nil]

theorem textDelete_all (s : String) : textDelete s 0 s.length = "" := by
  unfold textDelete
  show String.mk (s.data.take 0 ++ s.data.drop (0 + s.data.length)) = ""
  rw [List.take_zero, List.nil_append, Nat.zero_add, List.drop_length]

theorem textInsert_of_empty (s t : String) (h : s = "") : textInsert s 0 t = t := by
  subst h
  unfold textInsert
  show String.mk (([] : List Char).take 0 ++ t.data ++ ([] : List Char).drop 0) = t
  simp

theorem setLanguageTransact_eq (cur lang : String) :
    setLanguageTransact cur lang = lang := by
  unfold setLanguageTransact
  rw [textDelete_all]
  exact textInsert_of_empty _ _ rfl

theorem applyRemote_language_of_empty (s : PadState) (b : RemoteBatch)
    (h : b.lang = "") : (applyRemote s b).language = s.language := by
  unfold applyRemote
  rw [h]
  exact str_append_empty _

theorem languageFallback_of_ne (el : Option String) (s : PadState)
    (h : s.language ≠ "") : languageFallback el s = s := by
  unfold languageFallback
  rw [if_neg]
  intro hl
  exact h ((length_eq_zero_iff s.language).mp hl)

theorem tryFetchInsert_lang_preserved (fr : Except Unit FetchData) (s : PadState)
    (h : s.language ≠ "") (out : PadState × Bool)
    (ho : tryFetchInsert fr s = Except.ok out) : out.1.language = s.language := by
  cases fr with
  | error e => simp [tryFetchInsert] at ho
  | ok data =>
    unfold tryFetchInsert at ho
    simp only [Except.ok.injEq] at ho
    subst ho
    simp only
    by_cases hc : data.content ≠ "" ∧ s.content.length = 0
    · simp only [if_pos hc]
      cases data.language with
      | none => rfl
      | some lg =>
        simp only
        rw [if_neg]
        intro hl
        exact h ((length_eq_zero_iff s.language).mp hl.2)
    · simp only [if_neg hc]
      cases data.language with
      | none => rfl
      | some lg =>
        simp only
        rw [if_neg]
        intro hl
        exact h ((length_eq_zero_iff s.language).mp hl.2)

/-! ## Claim theorems: language register -/

/-- C10: when the websocket provider is not connected, setLanguage returns
false and leaves the whole pad state unchanged; when it is connected it
returns true and replaces the language register with the new value. -/
theorem setLanguage_disconnected_noop (s : PadState) (lang : String) :
    setLanguage false s lang = (s, false) ∧
    setLanguage true s lang = ({ s with language := lang }, true) := by
  constructor
  · rfl
  · unfold setLanguage
    rw [if_pos rfl, setLanguageTransact_eq]

/-- C9: every language write is a full replacement: the setLanguage
transaction deletes the whole register and inserts the new value, so the
result is the new value whatever the old one was; two successive
connected setLanguage calls end with the last value; and reconciliation
never touches a non-empty language register (absent remote language
traffic during its suspensions). -/
theorem setLanguage_full_replacement :
    (∀ cur lang : String, setLanguageTransact cur lang = lang) ∧
    (∀ (s : PadState) (l1 l2 : String),
      ((setLanguage true (setLanguage true s l1).1 l2).1).language = l2) ∧
    (∀ (env : ReconcileEnv) (s : PadState), s.language ≠ "" →
      env.roomCheckRemote.lang = "" → env.waitRemote.lang = "" →
      env.fetchRemote.lang = "" →
      (handleInitialContent env s).state.language = s.language) := by
  refine ⟨setLanguageTransact_eq, ?_, ?_⟩
  · intro s l1 l2
    simp [setLanguage, setLanguageTransact_eq]
  · intro env s hne h1 h2 h3
    have key : ∀ (t : PadState), t.language = s.language →
        (languageFallback env.editorLanguage t).language = s.language := by
      intro t ht
      rw [languageFallback_of_ne _ _ (by rw [ht]; exact hne), ht]
    have keyF : ∀ (fr : Except Unit FetchData) (t : PadState), t.language = s.language →
        ∀ out, tryFetchInsert fr t = Except.ok out →
          (languageFallback env.editorLanguage out.1).language = s.language := by
      intro fr t ht out hout
      have hl : out.1.language = s.language := by
        rw [tryFetchInsert_lang_preserved fr t (by rw [ht]; exact hne) out hout, ht]
      rw [languageFallback_of_ne _ _ (by rw [hl]; exact hne), hl]
    cases hh : s.initialContentHandled with
    | true =>
      unfold handleInitialContent
      rw [hh, if_pos rfl]
    | false =>
      unfold handleInitialContent
      rw [hh]
      have hs0 : ({ s with initialContentHandled := true } : PadState).language
          = s.language := rfl
      have hrc : (applyRemote { s with initialContentHandled := true }
          env.roomCheckRemote).language = s.language := by
        rw [applyRemote_language_of_empty _ _ h1]
      cases hr : env.checkRoomExists with
      | none =>
        simp only [Bool.false_eq_true, if_false]
        cases hf : env.onInitialContentNeeded with
        | none => exact key _ hs0
        | some fr =>
          by_cases hc : ({ s with initialContentHandled := true } : PadState).content.length = 0
          · simp only [hc, if_true, if_pos hc]
            have h5 : (applyRemote { s with initialContentHandled := true }
                env.fetchRemote).language = s.language := by
              rw [applyRemote_language_of_empty _ _ h3]
            cases ht : tryFetchInsert fr
                (applyRemote { s with initialContentHandled := true } env.fetchRemote) with
            | ok out => exact keyF _ _ h5 _ ht
            | error e => exact key _ h5
          · simp only [if_neg hc]
            exact key _ hs0
      | some r =>
        cases r with
        | ok b =>
          cases b with
          | true =>
            simp only [if_true]
            exact key _ (by rw [applyRemote_language_of_empty _ _ h2]; exact hrc)
          | false =>
            simp only [Bool.false_eq_true, if_false]
            cases hf : env.onInitialContentNeeded with
            | none => exact key _ hrc
            | some fr =>
              by_cases hc : (applyRemote { s with initialContentHandled := true }
                  env.roomCheckRemote).content.length = 0
              · simp only [if_pos hc]
                have h5 : (applyRemote (applyRemote { s with initialContentHandled := true }
                    env.roomCheckRemote) env.fetchRemote).language = s.language := by
                  rw [applyRemote_language_of_empty _ _ h3]; exact hrc
                cases ht : tryFetchInsert fr (applyRemote
                    (applyRemote { s with initialContentHandled := true } env.roomCheckRemote)
                    env.fetchRemote) with
                | ok out => exact keyF _ _ h5 _ ht
                | error e => exact key _ h5
              · simp only [if_neg hc]
                exact key _ hrc
        | error e =>
          simp only [Bool.false_eq_true, if_false]
          cases hf : env.onInitialContentNeeded with
          | none => exact key _ hrc
          | some fr =>
            by_cases hc : (applyRemote { s with initialContentHandled := true }
                env.roomCheckRemote).content.length = 0
            · simp only [if_pos hc]
              have h5 : (applyRemote (applyRemote { s with initialContentHandled := true }
                  env.roomCheckRemote) env.fetchRemote).language = s.language := by
                rw [applyRemote_language_of_empty _ _ h3]; exact hrc
              cases ht : tryFetchInsert fr (applyRemote
                  (applyRemote { s with initialContentHandled := true } env.roomCheckRemote)
                  env.fetchRemote) with
              | ok out => exact keyF _ _ h5 _ ht
              | error e2 => exact key _ h5
            · simp only [if_neg hc]
              exact key _ hrc

/-- Witness for setLanguage_full_replacement at a concrete state with a
non-empty language register and no remote language traffic. -/
theorem setLanguage_full_replacement_witness :
    (handleInitialContent
      { checkRoomExists := none
        onInitialContentNeeded := some (Except.ok { content := "hello", language := some "rust" })
        editorLanguage := some "python"
        roomCheckRemote := { text := "", lang := "" }
        waitRemote := { text := "", lang := "" }
        fetchRemote := { text := "", lang := "" }
        waitContentLen := fun _ => 0 }
      { content := "", language := "go", initialContentHandled := false }).state.language
      = "go" :=
  setLanguage_full_replacement.2.2 _ _ (by decide) rfl rfl rfl

/-! ## Reconciliation lemmas -/

theorem str_append_ne_left (s t : String) (h : t ≠ "") : s ++ t ≠ s := by
  intro he
  have h2 : (s.data ++ t.data).length = s.data.length := congrArg String.length he
  rw [List.length_append] at h2
  have h3 : t.data.length = 0 := by omega
  exact h ((length_eq_zero_iff t).mp h3)

theorem str_append_ne_right (s t : String) (h : s ≠ "") : s ++ t ≠ t := by
  intro he
  have h2 : (s.data ++ t.data).length = t.data.length := congrArg String.length he
  rw [List.length_append] at h2
  have h3 : s.data.length = 0 := by omega
  exact h ((length_eq_zero_iff s).mp h3)

theorem languageFallback_none (s : PadState) : languageFallback none s = s := by
  unfold languageFallback
  split <;> rfl

theorem languageFallback_latch (el : Option String) (s : PadState) :
    (languageFallback el s).initialContentHandled = s.initialContentHandled := by
  unfold languageFallback
  repeat' split
  all_goals rfl

theorem tryFetchInsert_latch (fr : Except Unit FetchData) (s : PadState)
    (out : PadState × Bool) (h : tryFetchInsert fr s = Except.ok out) :
    out.1.initialContentHandled = s.initialContentHandled := by
  cases fr with
  | error e => simp [tryFetchInsert] at h
  | ok data =>
    unfold tryFetchInsert at h
    simp only [Except.ok.injEq] at h
    subst h
    repeat' split
    all_goals rfl

theorem tryFetchInsert_empty (s : PadState) :
    tryFetchInsert (Except.ok { content := "", language := none }) s =
      Except.ok (s, false) := by
  unfold tryFetchInsert
  dsimp only
  rw [if_neg (fun hcon => hcon.1 rfl)]

/-- After any invocation of handleInitialContent the latch is set. -/
theorem hic_latch (env : ReconcileEnv) (s : PadState) :
    (handleInitialContent env s).state.initialContentHandled = true := by
  unfold handleInitialContent
  cases hh : s.initialContentHandled with
  | true => rw [if_pos rfl]; exact hh
  | false =>
    rw [if_neg Bool.false_ne_true]
    cases hr : env.checkRoomExists with
    | none =>
      dsimp only
      repeat' split
      all_goals
        first
          | exact (languageFallback_latch _ _).trans rfl
          | (rename_i heqq
             exact (languageFallback_latch _ _).trans
               ((tryFetchInsert_latch _ _ _ heqq).trans rfl))
    | some r =>
      cases r with
      | ok b =>
        dsimp only
        repeat' split
        all_goals
          first
            | exact (languageFallback_latch _ _).trans rfl
            | (rename_i heqq
               exact (languageFallback_latch _ _).trans
                 ((tryFetchInsert_latch _ _ _ heqq).trans rfl))
      | error e =>
        dsimp only
        repeat' split
        all_goals
          first
            | exact (languageFallback_latch _ _).trans rfl
            | (rename_i heqq
               exact (languageFallback_latch _ _).trans
                 ((tryFetchInsert_latch _ _ _ heqq).trans rfl))

/-- A latched invocation of handleInitialContent is a no-op. -/
theorem hic_noop (env : ReconcileEnv) (s : PadState) (h : s.initialContentHandled = true) :
    handleInitialContent env s =
      { state := s, fetched := false, inserted := false, waited := none, emissions := [] } := by
  unfold handleInitialContent
  rw [h, if_pos rfl]

/-- handleInitialContent never invokes a status callback. -/
theorem hic_emissions (env : ReconcileEnv) (s : PadState) :
    (handleInitialContent env s).emissions = [] := by
  unfold handleInitialContent
  dsimp only
  repeat' split
  all_goals rfl

theorem runInvocations_of_latch (envs : List ReconcileEnv) (s : PadState)
    (h : s.initialContentHandled = true) : runInvocations envs s = (s, 0, 0) := by
  induction envs with
  | nil => rfl
  | cons env rest ih =>
    simp [runInvocations, hic_noop env s h, ih]

/-! ## Claim theorems: reconciliation -/

/-- C2: the second of two invocations of handleInitialContent is a
complete no-op whatever the environments, and over any sequence of
invocations the backend fetch and the snapshot insertion each happen at
most once, including when the first fetch failed (the latch is set before
the fetch is even started). -/
theorem handleInitialContent_at_most_once :
    (∀ (env env2 : ReconcileEnv) (s : PadState),
      handleInitialContent env2 (handleInitialContent env s).state =
        { state := (handleInitialContent env s).state, fetched := false,
          inserted := false, waited := none, emissions := [] }) ∧
    (∀ (envs : List ReconcileEnv) (s : PadState),
      (runInvocations envs s).2.1 ≤ 1 ∧ (runInvocations envs s).2.2 ≤ 1) := by
  constructor
  · intro env env2 s
    exact hic_noop env2 _ (hic_latch env s)
  · intro envs s
    cases envs with
    | nil => exact ⟨Nat.zero_le 1, Nat.zero_le 1⟩
    | cons env rest =>
      simp only [runInvocations]
      rw [runInvocations_of_latch rest _ (hic_latch env s)]
      constructor
      · cases (handleInitialContent env s).fetched <;> simp
      · cases (handleInitialContent env s).inserted <;> simp

/-- C7: a rejected snapshot fetch is caught inside handleInitialContent:
the run is exactly the run in which the backend reported an empty
snapshot (document proceeds empty, nothing inserted), and no status
callback is ever invoked from inside the procedure. -/
theorem fetch_error_recovered (env : ReconcileEnv) (s : PadState) :
    handleInitialContent (withFetch env (Except.error ())) s =
      handleInitialContent (withFetch env (Except.ok { content := "", language := none })) s ∧
    (handleInitialContent (withFetch env (Except.error ())) s).inserted = false ∧
    (∀ env2 : ReconcileEnv, (handleInitialContent env2 s).emissions = []) := by
  obtain ⟨cre, oicn, el, rcr, wr, fre, wcl⟩ := env
  refine ⟨?_, ?_, fun env2 => hic_emissions env2 s⟩
  · unfold handleInitialContent withFetch
    dsimp only
    cases hh : s.initialContentHandled with
    | true => rw [if_pos rfl, if_pos rfl]
    | false =>
      rw [if_neg Bool.false_ne_true, if_neg Bool.false_ne_true]
      cases cre with
      | none =>
        dsimp only
        rw [if_neg Bool.false_ne_true, if_neg Bool.false_ne_true]
        by_cases hcl : s.content.length = 0
        · rw [if_pos hcl, if_pos hcl, tryFetchInsert_empty]
          dsimp only [tryFetchInsert]
        · rw [if_neg hcl, if_neg hcl]
      | some r =>
        cases r with
        | ok b =>
          cases b with
          | true => rfl
          | false =>
            dsimp only
            rw [if_neg Bool.false_ne_true, if_neg Bool.false_ne_true]
            by_cases hcl : (applyRemote { s with initialContentHandled := true }
                rcr).content.length = 0
            · rw [if_pos hcl, if_pos hcl, tryFetchInsert_empty]
              dsimp only [tryFetchInsert]
            · rw [if_neg hcl, if_neg hcl]
        | error e =>
          dsimp only
          rw [if_neg Bool.false_ne_true, if_neg Bool.false_ne_true]
          by_cases hcl : (applyRemote { s with initialContentHandled := true }
              rcr).content.length = 0
          · rw [if_pos hcl, if_pos hcl, tryFetchInsert_empty]
            dsimp only [tryFetchInsert]
          · rw [if_neg hcl, if_neg hcl]
  · unfold handleInitialContent withFetch
    dsimp only
    cases hh : s.initialContentHandled with
    | true => rw [if_pos rfl]
    | false =>
      rw [if_neg Bool.false_ne_true]
      cases cre with
      | none =>
        dsimp only
        rw [if_neg Bool.false_ne_true]
        by_cases hcl : s.content.length = 0
        · rw [if_pos hcl]
          dsimp only [tryFetchInsert]
        · rw [if_neg hcl]
      | some r =>
        cases r with
        | ok b =>
          cases b with
          | true => rfl
          | false =>
            dsimp only
            rw [if_neg Bool.false_ne_true]
            by_cases hcl : (applyRemote { s with initialContentHandled := true }
                rcr).content.length = 0
            · rw [if_pos hcl]
              dsimp only [tryFetchInsert]
            · rw [if_neg hcl]
        | error e =>
          dsimp only
          rw [if_neg Bool.false_ne_true]
          by_cases hcl : (applyRemote { s with initialContentHandled := true }
              rcr).content.length = 0
          · rw [if_pos hcl]
            dsimp only [tryFetchInsert]
          · rw [if_neg hcl]

/-- C1: in the race between a remote CRDT insertion of R and a backend
snapshot B fetched during reconciliation, the final content is exactly
one of R or B, decided by the still-empty re-check right before
insertion; the two sources are never concatenated and the snapshot is
not inserted when the remote text won. -/
theorem race_reconciliation_single_source (R B : String) (remoteArrives : Bool)
    (hR : R ≠ "") (hB : B ≠ "") :
    let env : ReconcileEnv :=
      { checkRoomExists := none
        onInitialContentNeeded := some (Except.ok { content := B, language := none })
        editorLanguage := none
        roomCheckRemote := { text := "", lang := "" }
        waitRemote := { text := "", lang := "" }
        fetchRemote := { text := if remoteArrives then R else "", lang := "" }
        waitContentLen := fun _ => 0 }
    let out := handleInitialContent env
      { content := "", language := "", initialContentHandled := false }
    out.state.content = (if remoteArrives then R else B) ∧
    (out.state.content = R ∨ out.state.content = B) ∧
    out.state.content ≠ R ++ B ∧ out.state.content ≠ B ++ R ∧
    (remoteArrives = true → out.inserted = false) := by
  intro env out
  have hcontent :
      (handleInitialContent env
          { content := "", language := "", initialContentHandled := false }).state.content
        = (if remoteArrives then R else B) ∧
      (remoteArrives = true →
        (handleInitialContent env
          { content := "", language := "", initialContentHandled := false }).inserted
          = false) := by
    cases remoteArrives with
    | true =>
      have hfg : ¬(B ≠ "" ∧ ("" ++ R).length = 0) :=
        fun hcon => hR ((length_eq_zero_iff ("" ++ R)).mp hcon.2)
      unfold handleInitialContent
      dsimp only [env, applyRemote]
      simp only [Bool.false_eq_true, if_false, if_true]
      rw [if_pos (by rfl)]
      unfold tryFetchInsert
      dsimp only
      rw [if_neg hfg]
      dsimp only
      rw [languageFallback_none]
      exact ⟨rfl, fun _ => rfl⟩
    | false =>
      have hok : B ≠ "" ∧ ("" ++ "" : String).length = 0 := ⟨hB, rfl⟩
      unfold handleInitialContent
      dsimp only [env, applyRemote]
      simp only [Bool.false_eq_true, if_false, if_true]
      rw [if_pos (by rfl)]
      unfold tryFetchInsert
      dsimp only
      rw [if_pos hok]
      dsimp only
      rw [languageFallback_none, textInsert_of_empty ("" ++ "") B rfl]
      exact ⟨rfl, fun h => h.elim⟩
  obtain ⟨hc, hi⟩ := hcontent
  refine ⟨hc, ?_, ?_, ?_, hi⟩
  · rw [hc]; cases remoteArrives with
    | true => exact Or.inl (if_pos rfl)
    | false => exact Or.inr (if_neg Bool.false_ne_true)
  · rw [hc]; cases remoteArrives with
    | true =>
      rw [if_pos rfl]
      intro he
      exact str_append_ne_left R B hB he.symm
    | false =>
      rw [if_neg Bool.false_ne_true]
      intro he
      exact str_append_ne_right R B hR he.symm
  · rw [hc]; cases remoteArrives with
    | true =>
      rw [if_pos rfl]
      intro he
      exact str_append_ne_right B R hB he.symm
    | false =>
      rw [if_neg Bool.false_ne_true]
      intro he
      exact str_append_ne_left B R hR he.symm

/-- Witness for race_reconciliation_single_source at the concrete race of
the specification, with the remote update winning. -/
theorem race_reconciliation_single_source_witness :
    ("R" : String) ≠ "" ∧ ("B" : String) ≠ "" ∧
    (handleInitialContent
      { checkRoomExists := none
        onInitialContentNeeded := some (Except.ok { content := "B", language := none })
        editorLanguage := none
        roomCheckRemote := { text := "", lang := "" }
        waitRemote := { text := "", lang := "" }
        fetchRemote := { text := "R", lang := "" }
        waitContentLen := fun _ => 0 }
      { content := "", language := "", initialContentHandled := false }).state.content
      = "R" := by
  refine ⟨by decide, by decide, ?_⟩
  have h := (race_reconciliation_single_source "R" "B" true (by decide) (by decide)).1
  simpa using h

/-! ## waitForSync lemmas -/

theorem waitForSyncLoop_props (cl : Nat → Nat) :
    ∀ (n w : Nat), 2000 ≤ w + 100 * n → w % 100 = 0 → w ≤ 2000 →
      waitForSyncLoop cl 2000 w ≤ 2000 ∧ waitForSyncLoop cl 2000 w % 100 = 0 ∧
      ((∀ t, cl t = 0) → waitForSyncLoop cl 2000 w = 2000) := by
  intro n
  induction n with
  | zero =>
    intro w hbound hmod hle
    have hw : w = 2000 := by omega
    subst hw
    rw [waitForSyncLoop]
    rw [if_pos (by simp)]
    exact ⟨Nat.le_refl 2000, by omega, fun _ => rfl⟩
  | succ n ih =>
    intro w hbound hmod hle
    rw [waitForSyncLoop]
    by_cases hcb : (decide (0 < cl w) || decide (2000 ≤ w)) = true
    · rw [if_pos hcb]
      refine ⟨hle, hmod, fun hz => ?_⟩
      rw [Bool.or_eq_true, decide_eq_true_eq, decide_eq_true_eq, hz w] at hcb
      omega
    · rw [if_neg hcb]
      rw [Bool.or_eq_true, decide_eq_true_eq, decide_eq_true_eq] at hcb
      push_neg at hcb
      exact ih (w + 100) (by omega) (by omega) (by omega)

/-! ## Claim theorems: bounded wait and status events -/

/-- C8: the reconciliation wait returns immediately (elapsed time zero)
when the content register is already non-empty, polls in fixed 100 ms
steps, never runs past the 2000 ms bound, ends exactly at the bound when
no content ever arrives, and is exactly what handleInitialContent awaits
when the room-exists predicate reports true. -/
theorem waitForSync_bounded :
    (∀ cl : Nat → Nat,
      (0 < cl 0 → waitForSync cl 2000 = 0) ∧
      waitForSync cl 2000 ≤ 2000 ∧
      waitForSync cl 2000 % 100 = 0 ∧
      ((∀ t, cl t = 0) → waitForSync cl 2000 = 2000)) ∧
    (∀ (env : ReconcileEnv) (s : PadState),
      s.initialContentHandled = false →
      env.checkRoomExists = some (Except.ok true) →
      (handleInitialContent env s).waited =
        some (waitForSync env.waitContentLen 2000)) := by
  constructor
  · intro cl
    refine ⟨fun h0 => ?_, ?_⟩
    · unfold waitForSync
      rw [if_pos h0]
    · unfold waitForSync
      by_cases h0 : 0 < cl 0
      · rw [if_pos h0]
        exact ⟨by omega, by omega, fun hz => absurd (hz 0) (by omega)⟩
      · rw [if_neg h0]
        exact waitForSyncLoop_props cl 20 0 (by omega) (by omega) (by omega)
  · intro env s hlatch hroom
    unfold handleInitialContent
    rw [hlatch, if_neg Bool.false_ne_true, hroom]
    dsimp only
    rw [if_pos rfl]

/-- Witness for waitForSync_bounded: content already present gives an
immediate return, no content gives the full 2000 ms bound, and the
room-exists branch records the awaited wait. -/
theorem waitForSync_bounded_witness :
    waitForSync (fun _ => 1) 2000 = 0 ∧ waitForSync (fun _ => 0) 2000 = 2000 ∧
    (handleInitialContent
      ⟨some (Except.ok true), none, none, ⟨"", ""⟩, ⟨"", ""⟩, ⟨"", ""⟩, fun _ => 0⟩
      ⟨"", "", false⟩).waited = some (waitForSync (fun _ => 0) 2000) :=
  ⟨(waitForSync_bounded.1 (fun _ => 1)).1 (by decide),
   (waitForSync_bounded.1 (fun _ => 0)).2.2.2 (fun _ => rfl),
   waitForSync_bounded.2 _ _ rfl rfl⟩

/-- C4 counterexample: the deterministic listener layer forwards a
connected status event delivered after the connection-error signal, so a
connected emission follows a desynchronized emission and terminality
fails on this event sequence. -/
theorem desync_terminal_counterexample :
    emitted [ProviderEvent.connectionError, ProviderEvent.statusConnected] =
      [Emission.desynchronized, Emission.connected] ∧
    ¬ desyncTerminal [ProviderEvent.connectionError, ProviderEvent.statusConnected] :=
  ⟨rfl, by unfold desyncTerminal; decide⟩

theorem emitted_append (evs1 evs2 : List ProviderEvent) :
    emitted (evs1 ++ evs2) = emitted evs1 ++ emitted evs2 := by
  induction evs1 with
  | nil => rfl
  | cons e rest ih => simp [emitted, ih]

theorem emissions_no_status (evs : List ProviderEvent)
    (h : evs.all (fun e => !(decide (e = ProviderEvent.statusConnected)) &&
        !(decide (e = ProviderEvent.statusDisconnected))) = true) :
    (emitted evs).all (fun m => !(decide (m = Emission.connected)) &&
        !(decide (m = Emission.disconnected))) = true := by
  induction evs with
  | nil => rfl
  | cons e rest ih =>
    rw [List.all_cons, Bool.and_eq_true] at h
    cases e with
    | statusConnected => simp at h
    | statusDisconnected => simp at h
    | statusOther => exact ih h.2
    | connectionError =>
      show (Emission.desynchronized :: emitted rest).all _ = true
      rw [List.all_cons, Bool.and_eq_true]
      exact ⟨by decide, ih h.2⟩

theorem noStatusAfterDesync_of_all (l : List Emission)
    (h : l.all (fun m => !(decide (m = Emission.connected)) &&
        !(decide (m = Emission.disconnected))) = true) :
    noStatusAfterDesync l = true := by
  induction l with
  | nil => rfl
  | cons m rest ih =>
    rw [List.all_cons, Bool.and_eq_true] at h
    cases m with
    | connected => simp at h
    | disconnected => simp at h
    | desynchronized =>
      show (rest.all _ && noStatusAfterDesync rest) = true
      rw [Bool.and_eq_true]
      exact ⟨h.2, ih h.2⟩

/-- C4 amended: the listener layer is stateless — it forwards provider
events segment by segment and keeps no latch — so desynchronized is
terminal for a session exactly when the provider delivers no further
status events after its connection-error signal; when the provider does
reconnect and emit a connected status, the core emits connected again. -/
theorem desync_forwarding_amended :
    (∀ evs1 evs2 : List ProviderEvent,
      emitted (evs1 ++ evs2) = emitted evs1 ++ emitted evs2) ∧
    (∀ evs : List ProviderEvent, noStatusAfterError evs = true → desyncTerminal evs) := by
  refine ⟨emitted_append, ?_⟩
  intro evs
  unfold desyncTerminal
  induction evs with
  | nil => intro h; rfl
  | cons e rest ih =>
    intro h
    cases e with
    | statusConnected => exact ih h
    | statusDisconnected => exact ih h
    | statusOther => exact ih h
    | connectionError =>
      have hall := emissions_no_status rest h
      have hnd := noStatusAfterDesync_of_all _ hall
      show ((emitted rest).all (fun m => !(decide (m = Emission.connected)) &&
          !(decide (m = Emission.disconnected))) && noStatusAfterDesync (emitted rest)) = true
      rw [Bool.and_eq_true]
      exact ⟨hall, hnd⟩

/-- Witness for desync_forwarding_amended: a provider that stays silent
after its connection error yields a terminal desynchronized emission. -/
theorem desync_forwarding_amended_witness :
    desyncTerminal [ProviderEvent.statusConnected, ProviderEvent.connectionError,
      ProviderEvent.statusOther] :=
  desync_forwarding_amended.2 _ (by decide)

/-! ## Presence lemmas -/

theorem eq_of_mem_keys_nodup {α β : Type} [DecidableEq α] {l : List (α × β)}
    (h : (l.map (fun p => p.1)).Nodup) {p q : α × β}
    (hp : p ∈ l) (hq : q ∈ l) (hk : p.1 = q.1) : p = q := by
  induction l with
  | nil => cases hp
  | cons a t ih =>
    rw [List.map_cons, List.nodup_cons] at h
    rcases List.mem_cons.mp hp with rfl | hpt
    · rcases List.mem_cons.mp hq with rfl | hqt
      · rfl
      · exact absurd (hk ▸ List.mem_map_of_mem (fun p => p.1) hqt) h.1
    · rcases List.mem_cons.mp hq with rfl | hqt
      · exact absurd (hk ▸ List.mem_map_of_mem (fun p => p.1) hpt) h.1
      · exact ih h.2 hpt hqt

theorem find?_key_eq_self {α β : Type} [DecidableEq α] {l : List (α × β)}
    (h : (l.map (fun p => p.1)).Nodup) {e : α × β} (he : e ∈ l) :
    l.find? (fun p => p.1 = e.1) = some e := by
  induction l with
  | nil => cases he
  | cons a t ih =>
    rw [List.map_cons, List.nodup_cons] at h
    rcases List.mem_cons.mp he with rfl | het
    · rw [List.find?_cons_of_pos]
      simp
    · rw [List.find?_cons_of_neg, ih h.2 het]
      simp only [decide_eq_true_eq]
      intro heq
      exact h.1 (heq ▸ List.mem_map_of_mem (fun p => p.1) het)

theorem lookupKey_none (m : List IdentEntry) (k : String)
    (h : lookupKey m k = none) : ∀ p ∈ m, p.1 ≠ k := by
  unfold lookupKey at h
  cases hf : m.find? (fun e => e.1 = k) with
  | none =>
    rw [List.find?_eq_none] at hf
    intro p hp
    have := hf p hp
    simpa using this
  | some e => rw [hf] at h; cases h

theorem lookupKey_some (m : List IdentEntry) (k : String) (v : Nat × UserInfo)
    (h : lookupKey m k = some v) : (k, v) ∈ m := by
  unfold lookupKey at h
  cases hf : m.find? (fun e => e.1 = k) with
  | none => rw [hf] at h; cases h
  | some e =>
    rw [hf] at h
    have hmem := List.mem_of_find?_eq_some hf
    have hkey := List.find?_some hf
    simp only [decide_eq_true_eq] at hkey
    cases h
    have : e = (k, e.2) := by
      apply Prod.ext
      · exact hkey
      · rfl
    rw [← this]
    exact hmem

theorem setKey_keys_replace (m : List IdentEntry) (k : String) (v : Nat × UserInfo)
    (h : (m.any fun e => e.1 = k) = true) :
    (setKey m k v).map (fun p => p.1) = m.map (fun p => p.1) := by
  unfold setKey
  rw [if_pos h, List.map_map]
  apply List.map_congr_left
  intro e _
  by_cases hek : e.1 = k
  · simp [hek]
  · simp [hek]

theorem setKey_keys_append (m : List IdentEntry) (k : String) (v : Nat × UserInfo)
    (h : ¬ (m.any fun e => e.1 = k) = true) :
    (setKey m k v).map (fun p => p.1) = m.map (fun p => p.1) ++ [k] := by
  unfold setKey
  rw [if_neg h, List.map_append]
  rfl

theorem mem_setKey (m : List IdentEntry) (k : String) (v : Nat × UserInfo)
    (p : IdentEntry) (hp : p ∈ setKey m k v) :
    p = (k, v) ∨ (p ∈ m ∧ p.1 ≠ k) := by
  unfold setKey at hp
  by_cases hany : (m.any fun e => e.1 = k) = true
  · rw [if_pos hany] at hp
    obtain ⟨e, he, hpe⟩ := List.mem_map.mp hp
    by_cases hek : e.1 = k
    · rw [if_pos hek] at hpe
      exact Or.inl hpe.symm
    · rw [if_neg hek] at hpe
      exact Or.inr ⟨hpe ▸ he, hpe ▸ hek⟩
  · rw [if_neg hany] at hp
    rcases List.mem_append.mp hp with hin | hone
    · refine Or.inr ⟨hin, ?_⟩
      simp only [List.any_eq_true, decide_eq_true_eq, not_exists, not_and] at hany
      exact hany p hin
    · exact Or.inl (List.mem_singleton.mp hone)

theorem setKey_mem_key (m : List IdentEntry) (k : String) (v : Nat × UserInfo) :
    k ∈ (setKey m k v).map (fun p => p.1) := by
  by_cases hany : (m.any fun e => e.1 = k) = true
  · rw [setKey_keys_replace m k v hany]
    obtain ⟨e, he, hek⟩ := List.any_eq_true.mp hany
    simp only [decide_eq_true_eq] at hek
    exact hek ▸ List.mem_map_of_mem (fun p => p.1) he
  · rw [setKey_keys_append m k v hany]
    exact List.mem_append.mpr (Or.inr (List.mem_singleton.mpr rfl))

theorem keys_subset_setKey (m : List IdentEntry) (k : String) (v : Nat × UserInfo)
    (k2 : String) (h : k2 ∈ m.map (fun p => p.1)) :
    k2 ∈ (setKey m k v).map (fun p => p.1) := by
  by_cases hany : (m.any fun e => e.1 = k) = true
  · rw [setKey_keys_replace m k v hany]; exact h
  · rw [setKey_keys_append m k v hany]; exact List.mem_append.mpr (Or.inl h)

theorem collectStep_eq (localClientId : Nat) (m : List IdentEntry)
    (e : Nat × Option AwState) :
    collectStep localClientId m e =
      match entryUser e with
      | none => m
      | some u =>
        if e.1 = localClientId then m
        else
          match lookupKey m (identityKey u) with
          | none => setKey m (identityKey u) (e.1, u)
          | some ex => if ex.1 < e.1 then setKey m (identityKey u) (e.1, u) else m := by
  obtain ⟨c, os⟩ := e
  cases os with
  | none => rfl
  | some st =>
    obtain ⟨ou, cur⟩ := st
    cases ou with
    | none => rfl
    | some r => rfl

theorem collectStep_inv (localClientId : Nat)
    (processed : List (Nat × Option AwState)) (m : List IdentEntry)
    (e : Nat × Option AwState) (hinv : CollectInv localClientId processed m) :
    CollectInv localClientId (processed ++ [e]) (collectStep localClientId m e) := by
  obtain ⟨hnd, hwk, horig, hmax, hcov⟩ := hinv
  rw [collectStep_eq]
  cases hu : entryUser e with
  | none =>
    refine ⟨hnd, hwk, ?_, ?_, ?_⟩
    · intro p hp
      obtain ⟨e0, he0, h1, h2⟩ := horig p hp
      exact ⟨e0, List.mem_append.mpr (Or.inl he0), h1, h2⟩
    · intro p hp e0 he0 u0 hu0 hne hk
      rcases List.mem_append.mp he0 with h | h
      · exact hmax p hp e0 h u0 hu0 hne hk
      · rw [List.mem_singleton.mp h, hu] at hu0
        cases hu0
    · intro e0 he0 u0 hu0 hne
      rcases List.mem_append.mp he0 with h | h
      · exact hcov e0 h u0 hu0 hne
      · rw [List.mem_singleton.mp h, hu] at hu0
        cases hu0
  | some u =>
    dsimp only
    by_cases hloc : e.1 = localClientId
    · rw [if_pos hloc]
      refine ⟨hnd, hwk, ?_, ?_, ?_⟩
      · intro p hp
        obtain ⟨e0, he0, h1, h2⟩ := horig p hp
        exact ⟨e0, List.mem_append.mpr (Or.inl he0), h1, h2⟩
      · intro p hp e0 he0 u0 hu0 hne hk
        rcases List.mem_append.mp he0 with h | h
        · exact hmax p hp e0 h u0 hu0 hne hk
        · rw [List.mem_singleton.mp h] at hne
          exact absurd hloc hne
      · intro e0 he0 u0 hu0 hne
        rcases List.mem_append.mp he0 with h | h
        · exact hcov e0 h u0 hu0 hne
        · rw [List.mem_singleton.mp h] at hne
          exact absurd hloc hne
    · rw [if_neg hloc]
      cases hl : lookupKey m (identityKey u) with
      | none =>
        have hknotin : ∀ p ∈ m, p.1 ≠ identityKey u := lookupKey_none m _ hl
        have hany : ¬ (m.any fun p => p.1 = identityKey u) = true := by
          simp only [List.any_eq_true, decide_eq_true_eq, not_exists, not_and]
          exact hknotin
        have hset : setKey m (identityKey u) (e.1, u)
            = m ++ [(identityKey u, (e.1, u))] := by
          unfold setKey
          rw [if_neg hany]
        rw [hset]
        have hkeys : (m ++ [(identityKey u, (e.1, u))]).map (fun p => p.1)
            = m.map (fun p => p.1) ++ [identityKey u] := by
          rw [List.map_append]
          rfl
        refine ⟨?_, ?_, ?_, ?_, ?_⟩
        · rw [hkeys, List.nodup_append]
          refine ⟨hnd, List.nodup_singleton _, ?_⟩
          intro a ha hb
          rw [List.mem_singleton] at hb
          obtain ⟨p, hp, hpk⟩ := List.mem_map.mp ha
          exact hknotin p hp (hpk.trans hb)
        · intro p hp
          rcases List.mem_append.mp hp with h | h
          · exact hwk p h
          · rw [List.mem_singleton.mp h]
            exact ⟨rfl, hloc⟩
        · intro p hp
          rcases List.mem_append.mp hp with h | h
          · obtain ⟨e0, he0, h1, h2⟩ := horig p h
            exact ⟨e0, List.mem_append.mpr (Or.inl he0), h1, h2⟩
          · rw [List.mem_singleton.mp h]
            exact ⟨e, List.mem_append.mpr (Or.inr (List.mem_singleton.mpr rfl)), hu, rfl⟩
        · intro p hp e0 he0 u0 hu0 hne hk
          rcases List.mem_append.mp hp with hpm | hpn
          · rcases List.mem_append.mp he0 with h | h
            · exact hmax p hpm e0 h u0 hu0 hne hk
            · rw [List.mem_singleton.mp h, hu] at hu0
              obtain rfl := Option.some.inj hu0
              exact absurd hk.symm (hknotin p hpm)
          · rw [List.mem_singleton] at hpn
            subst hpn
            rcases List.mem_append.mp he0 with h | h
            · obtain ⟨q, hq, hqk⟩ :=
                List.mem_map.mp (hcov e0 h u0 hu0 hne)
              exact absurd (hqk.trans hk) (hknotin q hq)
            · rw [List.mem_singleton.mp h]
        · intro e0 he0 u0 hu0 hne
          rw [hkeys]
          rcases List.mem_append.mp he0 with h | h
          · exact List.mem_append.mpr (Or.inl (hcov e0 h u0 hu0 hne))
          · rw [List.mem_singleton.mp h, hu] at hu0
            obtain rfl := Option.some.inj hu0
            exact List.mem_append.mpr (Or.inr (List.mem_singleton.mpr rfl))
      | some ex =>
        dsimp only
        have hexm : (identityKey u, ex) ∈ m := lookupKey_some m _ ex hl
        by_cases hlt : ex.1 < e.1
        · rw [if_pos hlt]
          have hany : (m.any fun p => p.1 = identityKey u) = true := by
            rw [List.any_eq_true]
            exact ⟨(identityKey u, ex), hexm, by simp⟩
          have hkeys := setKey_keys_replace m (identityKey u) (e.1, u) hany
          refine ⟨?_, ?_, ?_, ?_, ?_⟩
          · rw [hkeys]
            exact hnd
          · intro p hp
            rcases mem_setKey _ _ _ p hp with rfl | ⟨hpm, _⟩
            · exact ⟨rfl, hloc⟩
            · exact hwk p hpm
          · intro p hp
            rcases mem_setKey _ _ _ p hp with rfl | ⟨hpm, _⟩
            · exact ⟨e, List.mem_append.mpr (Or.inr (List.mem_singleton.mpr rfl)), hu, rfl⟩
            · obtain ⟨e0, he0, h1, h2⟩ := horig p hpm
              exact ⟨e0, List.mem_append.mpr (Or.inl he0), h1, h2⟩
          · intro p hp e0 he0 u0 hu0 hne hk
            rcases mem_setKey _ _ _ p hp with rfl | ⟨hpm, hpk⟩
            · rcases List.mem_append.mp he0 with h | h
              · have h4 := hmax (identityKey u, ex) hexm e0 h u0 hu0 hne hk
                exact Nat.le_trans h4 (Nat.le_of_lt hlt)
              · rw [List.mem_singleton.mp h]
            · rcases List.mem_append.mp he0 with h | h
              · exact hmax p hpm e0 h u0 hu0 hne hk
              · rw [List.mem_singleton.mp h, hu] at hu0
                obtain rfl := Option.some.inj hu0
                exact absurd hk.symm hpk
          · intro e0 he0 u0 hu0 hne
            rcases List.mem_append.mp he0 with h | h
            · rw [hkeys]
              exact hcov e0 h u0 hu0 hne
            · rw [List.mem_singleton.mp h, hu] at hu0
              obtain rfl := Option.some.inj hu0
              exact setKey_mem_key m (identityKey u) (e.1, u)
        · rw [if_neg hlt]
          refine ⟨hnd, hwk, ?_, ?_, ?_⟩
          · intro p hp
            obtain ⟨e0, he0, h1, h2⟩ := horig p hp
            exact ⟨e0, List.mem_append.mpr (Or.inl he0), h1, h2⟩
          · intro p hp e0 he0 u0 hu0 hne hk
            rcases List.mem_append.mp he0 with h | h
            · exact hmax p hp e0 h u0 hu0 hne hk
            · rw [List.mem_singleton.mp h, hu] at hu0
              obtain rfl := Option.some.inj hu0
              have hpq : p = (identityKey u, ex) := eq_of_mem_keys_nodup hnd hp hexm hk.symm
              rw [List.mem_singleton.mp h, hpq]
              exact Nat.le_of_not_lt hlt
          · intro e0 he0 u0 hu0 hne
            rcases List.mem_append.mp he0 with h | h
            · exact hcov e0 h u0 hu0 hne
            · rw [List.mem_singleton.mp h, hu] at hu0
              obtain rfl := Option.some.inj hu0
              exact List.mem_map.mpr ⟨(identityKey u, ex), hexm, rfl⟩

theorem collectInv_nil (localClientId : Nat) : CollectInv localClientId [] [] := by
  refine ⟨List.nodup_nil, ?_, ?_, ?_, ?_⟩
  · intro p hp
    cases hp
  · intro p hp
    cases hp
  · intro p hp
    cases hp
  · intro e he
    cases he

theorem foldl_collect_inv (localClientId : Nat) :
    ∀ (states processed : List (Nat × Option AwState)) (m : List IdentEntry),
      CollectInv localClientId processed m →
      CollectInv localClientId (processed ++ states)
        (states.foldl (collectStep localClientId) m) := by
  intro states
  induction states with
  | nil =>
    intro processed m h
    simpa using h
  | cons e rest ih =>
    intro processed m h
    have h2 := collectStep_inv localClientId processed m e h
    have h3 := ih (processed ++ [e]) _ h2
    rw [List.append_assoc, List.singleton_append] at h3
    exact h3

theorem usersByIdentity_inv (localClientId : Nat)
    (states : List (Nat × Option AwState)) :
    CollectInv localClientId states (usersByIdentity localClientId states) := by
  have h := foldl_collect_inv localClientId states [] [] (collectInv_nil localClientId)
  rw [List.nil_append] at h
  exact h

theorem entryUser_of_user (c : Nat) (st : AwState) (r : RawUser)
    (h : st.user = some r) : entryUser (c, some st) = some (normUser r) := by
  unfold entryUser
  dsimp only
  rw [h]

/-! ## Claim theorems: presence -/

/-- C6: the local connection id never appears among the published keys —
exclusion is by client id in the forEach skip — and a remote connection
that shares the local user name and hue is still published: its identity
appears in the deduplicated set. -/
theorem local_client_excluded :
    (∀ (localClientId : Nat) (states : List (Nat × Option AwState)),
      localClientId ∉ (updateUsersNew localClientId states).map (fun p => p.1)) ∧
    (∀ (localClientId : Nat) (states : List (Nat × Option AwState))
        (c : Nat) (st : AwState) (r : RawUser),
      (c, some st) ∈ states → st.user = some r → c ≠ localClientId →
      ∃ p ∈ updateUsersNew localClientId states,
        identityKey p.2 = identityKey (normUser r)) := by
  constructor
  · intro localClientId states hmem
    obtain ⟨_, hwk, _, _, _⟩ := usersByIdentity_inv localClientId states
    unfold updateUsersNew at hmem
    rw [List.map_map] at hmem
    obtain ⟨p, hp, hpk⟩ := List.mem_map.mp hmem
    exact (hwk p hp).2 hpk
  · intro localClientId states c st r hmem huser hne
    obtain ⟨_, hwk, _, _, hcov⟩ := usersByIdentity_inv localClientId states
    have hkey := hcov (c, some st) hmem (normUser r) (entryUser_of_user c st r huser) hne
    obtain ⟨p, hp, hpk⟩ := List.mem_map.mp hkey
    refine ⟨p.2, List.mem_map_of_mem (fun q => q.2) hp, ?_⟩
    rw [← (hwk p hp).1, hpk]

/-- Witness for local_client_excluded: a remote connection (id 2) sharing
the local user identity (id 1, Amy, hue 10) still publishes that
identity. -/
theorem local_client_excluded_witness :
    ∃ p ∈ updateUsersNew 1
        [(1, some ⟨some ⟨some "Amy", some 10⟩, 0⟩),
         (2, some ⟨some ⟨some "Amy", some 10⟩, 0⟩)],
      identityKey p.2 = identityKey (normUser ⟨some "Amy", some 10⟩) :=
  local_client_excluded.2 1 _ 2 ⟨some ⟨some "Amy", some 10⟩, 0⟩ ⟨some "Amy", some 10⟩
    (by decide) rfl (by decide)

/-- C3: the published peer set holds at most one entry per (name, hue)
pair; among connections sharing the same normalized (name, hue), a
smaller client id never survives against a larger one; and the
specification example 5:Amy/10, 7:Amy/10, 9:Bob/200 publishes exactly
Amy/10 under connection 7 and Bob/200 under connection 9. -/
theorem presence_dedup_largest_id :
    (∀ (localClientId : Nat) (states : List (Nat × Option AwState)),
      (updateUsersNew localClientId states).Pairwise (fun p q => p.2 ≠ q.2)) ∧
    (∀ (localClientId : Nat) (states : List (Nat × Option AwState)),
      (states.map (fun e => e.1)).Nodup →
      ∀ (c1 c2 : Nat) (s1 s2 : AwState) (r1 r2 : RawUser),
        (c1, some s1) ∈ states → s1.user = some r1 →
        (c2, some s2) ∈ states → s2.user = some r2 →
        c1 ≠ localClientId → c2 ≠ localClientId →
        normUser r1 = normUser r2 → c1 < c2 →
        c1 ∉ (updateUsersNew localClientId states).map (fun p => p.1)) ∧
    (updateUsersNew 1
        [(5, some ⟨some ⟨some "Amy", some 10⟩, 0⟩),
         (7, some ⟨some ⟨some "Amy", some 10⟩, 0⟩),
         (9, some ⟨some ⟨some "Bob", some 200⟩, 0⟩)] =
      [(7, ⟨"Amy", 10⟩), (9, ⟨"Bob", 200⟩)]) := by
  refine ⟨?_, ?_, by decide⟩
  · intro localClientId states
    obtain ⟨hnd, hwk, _, _, _⟩ := usersByIdentity_inv localClientId states
    unfold updateUsersNew
    rw [List.pairwise_map]
    rw [List.Nodup] at hnd
    have hkeys := List.pairwise_map.mp hnd
    refine hkeys.imp_of_mem ?_
    intro p q hp hq hpq hval
    exact hpq (((hwk p hp).1.trans (by rw [hval])).trans ((hwk q hq).1).symm)
  · intro localClientId states hnd2 c1 c2 s1 s2 r1 r2 h1 hu1 h2 hu2 hne1 hne2 hnorm hlt hmem
    obtain ⟨_, hwk, horig, hmax, _⟩ := usersByIdentity_inv localClientId states
    unfold updateUsersNew at hmem
    rw [List.map_map] at hmem
    obtain ⟨p, hp, hpk⟩ := List.mem_map.mp hmem
    have hpk2 : p.2.1 = c1 := hpk
    obtain ⟨e0, he0, heu, hei⟩ := horig p hp
    have he0eq : e0 = (c1, some s1) := by
      apply eq_of_mem_keys_nodup hnd2 he0 h1
      rw [hei, hpk2]
    rw [he0eq, entryUser_of_user c1 s1 r1 hu1] at heu
    have hval : p.2.2 = normUser r1 := (Option.some.inj heu).symm
    have hkey : identityKey (normUser r2) = p.1 := by
      rw [(hwk p hp).1, hval, hnorm]
    have hbound := hmax p hp (c2, some s2) h2 (normUser r2)
      (entryUser_of_user c2 s2 r2 hu2) hne2 hkey
    rw [hpk2] at hbound
    exact absurd hbound (Nat.not_le_of_lt hlt)

/-- Witness for presence_dedup_largest_id: in the specification example,
connection 5 (the smaller Amy/10 connection) is not among the published
keys. -/
theorem presence_dedup_largest_id_witness :
    5 ∉ (updateUsersNew 1
        [(5, some ⟨some ⟨some "Amy", some 10⟩, 0⟩),
         (7, some ⟨some ⟨some "Amy", some 10⟩, 0⟩),
         (9, some ⟨some ⟨some "Bob", some 200⟩, 0⟩)]).map (fun p => p.1) :=
  presence_dedup_largest_id.2.1 1 _ (by decide) 5 7
    ⟨some ⟨some "Amy", some 10⟩, 0⟩ ⟨some ⟨some "Amy", some 10⟩, 0⟩
    ⟨some "Amy", some 10⟩ ⟨some "Amy", some 10⟩
    (by decide) rfl (by decide) rfl (by decide) (by decide) rfl (by decide)

theorem collectStep_proj (localClientId : Nat) (m : List IdentEntry)
    (e1 e2 : Nat × Option AwState)
    (h : (e1.1, e1.2.map (fun st => st.user)) = (e2.1, e2.2.map (fun st => st.user))) :
    collectStep localClientId m e1 = collectStep localClientId m e2 := by
  obtain ⟨c1, o1⟩ := e1
  obtain ⟨c2, o2⟩ := e2
  simp only [Prod.mk.injEq] at h
  obtain ⟨hc, ho⟩ := h
  subst hc
  cases o1 with
  | none =>
    cases o2 with
    | none => rfl
    | some st2 => simp at ho
  | some st1 =>
    cases o2 with
    | none => simp at ho
    | some st2 =>
      simp at ho
      unfold collectStep
      dsimp only
      rw [ho]

theorem usersByIdentity_congr (localClientId : Nat) :
    ∀ (states1 states2 : List (Nat × Option AwState)),
      states1.map (fun e => (e.1, e.2.map (fun st => st.user))) =
        states2.map (fun e => (e.1, e.2.map (fun st => st.user))) →
      ∀ m : List IdentEntry,
        states1.foldl (collectStep localClientId) m =
          states2.foldl (collectStep localClientId) m := by
  intro states1
  induction states1 with
  | nil =>
    intro states2 h m
    cases states2 with
    | nil => rfl
    | cons e2 r2 => simp at h
  | cons e1 r1 ih =>
    intro states2 h m
    cases states2 with
    | nil => simp at h
    | cons e2 r2 =>
      simp only [List.map_cons, List.cons.injEq] at h
      rw [List.foldl_cons, List.foldl_cons,
        collectStep_proj localClientId m e1 e2 h.1]
      exact ih r2 h.2 _

theorem updateUsersNew_congr (localClientId : Nat)
    (states1 states2 : List (Nat × Option AwState))
    (h : states1.map (fun e => (e.1, e.2.map (fun st => st.user))) =
      states2.map (fun e => (e.1, e.2.map (fun st => st.user)))) :
    updateUsersNew localClientId states1 = updateUsersNew localClientId states2 := by
  unfold updateUsersNew usersByIdentity
  rw [usersByIdentity_congr localClientId states1 states2 h []]

theorem output_cids_nodup (localClientId : Nat) (states : List (Nat × Option AwState))
    (hnd2 : (states.map (fun e => e.1)).Nodup) :
    ((updateUsersNew localClientId states).map (fun p => p.1)).Nodup := by
  obtain ⟨hnd, hwk, horig, _, _⟩ := usersByIdentity_inv localClientId states
  unfold updateUsersNew
  rw [List.map_map]
  rw [List.Nodup] at hnd ⊢
  have hkeys := List.pairwise_map.mp hnd
  rw [List.pairwise_map]
  refine hkeys.imp_of_mem ?_
  intro p q hp hq hpq hcid
  have hcid2 : p.2.1 = q.2.1 := hcid
  obtain ⟨ep, hep, heup, heip⟩ := horig p hp
  obtain ⟨eq0, heq0, heuq, heiq⟩ := horig q hq
  have hee : ep = eq0 := by
    apply eq_of_mem_keys_nodup hnd2 hep heq0
    rw [heip, heiq, hcid2]
  rw [hee, heuq] at heup
  have hval : p.2.2 = q.2.2 := (Option.some.inj heup).symm
  apply hpq
  rw [(hwk p hp).1, (hwk q hq).1, hval]

theorem usersEqual_refl (a : List (Nat × UserInfo))
    (h : (a.map (fun p => p.1)).Nodup) : usersEqual a a = true := by
  unfold usersEqual
  rw [Bool.and_eq_true]
  constructor
  · simp
  · rw [List.all_eq_true]
    intro e he
    have hl : lookupUser a e.1 = some e.2 := by
      unfold lookupUser
      rw [find?_key_eq_self h he]
    rw [hl]
    simp

/-- C5: two presence updates whose broadcast states agree on connection
ids and user records (differing only in the ephemeral cursor payload)
publish at most once — the second update never fires — and a publish
fires only when the recomputed set differs from the previously published
one under the per-entry name and hue comparison. -/
theorem no_spurious_republish :
    (∀ (localClientId : Nat) (prev : List (Nat × UserInfo))
        (states1 states2 : List (Nat × Option AwState)),
      states1.map (fun e => (e.1, e.2.map (fun st => st.user))) =
        states2.map (fun e => (e.1, e.2.map (fun st => st.user))) →
      (states1.map (fun e => e.1)).Nodup →
      (updateUsers localClientId states2
        (updateUsers localClientId states1 prev).1).2 = false) ∧
    (∀ (localClientId : Nat) (states : List (Nat × Option AwState))
        (prev : List (Nat × UserInfo)),
      (updateUsers localClientId states prev).2 = true →
      usersEqual prev (updateUsersNew localClientId states) = false) := by
  constructor
  · intro localClientId prev states1 states2 hproj hnd
    have hnew : updateUsersNew localClientId states2
        = updateUsersNew localClientId states1 :=
      (updateUsersNew_congr localClientId states1 states2 hproj).symm
    unfold updateUsers
    dsimp only
    rw [hnew]
    by_cases he : usersEqual prev (updateUsersNew localClientId states1) = true
    · rw [if_pos he]
      dsimp only
      rw [if_pos he]
    · rw [if_neg he]
      dsimp only
      rw [if_pos (usersEqual_refl _ (output_cids_nodup localClientId states1 hnd))]
  · intro localClientId states prev h
    cases hb : usersEqual prev (updateUsersNew localClientId states) with
    | false => rfl
    | true =>
      unfold updateUsers at h
      dsimp only at h
      rw [hb, if_pos rfl] at h
      simp at h

/-- Witness for no_spurious_republish: the same single remote user with a
moved cursor does not republish, while the first update from an empty
published set does fire. -/
theorem no_spurious_republish_witness :
    (updateUsers 1 [(2, some ⟨some ⟨some "Amy", some 10⟩, 4⟩)]
      (updateUsers 1 [(2, some ⟨some ⟨some "Amy", some 10⟩, 3⟩)] []).1).2 = false ∧
    usersEqual [] (updateUsersNew 1 [(2, some ⟨some ⟨some "Amy", some 10⟩, 3⟩)]) = false :=
  ⟨no_spurious_republish.1 1 [] _ _ (by decide) (by decide),
   no_spurious_republish.2 1 _ [] (by decide)⟩

end Remdit
